import Mathlib

/-!
Verification of the GEP genome core (package genome, file genome.go).

The Genome aggregate owns an ordered sequence of pointers to Gene values,
a linking-function symbol, a fitness score and a lazily memoized symbol
map.  Genes live behind pointers (Go `[]*gene.Gene`), so we model a heap:
addresses are naturals and the heap is a list of gene records indexed by
address.  The Gene type itself and the function registries are external
collaborators (packages gene, functions, math_nodes); we embed their fixed
contracts as plain records and lookup tables.

Go `float64` values never undergo arithmetic inside this core (the fold
delegates to the registry), so the numeric carrier is modelled as `Int`.
-/

namespace GEP

/-- A 4-ary boolean combination behavior from the boolean function
registry (collaborator contract `BoolFunction(a, b, c, d) -> bool`). -/
abbrev BoolFn : Type := Bool → Bool → Bool → Bool → Bool

/-- A 4-ary numeric combination behavior from the numeric function
registry (collaborator contract `Float64Function(a, b, c, d) -> float`). -/
abbrev MathFn : Type := Int → Int → Int → Int → Int

/-- Modelled from the spec: the boolean function registry
(package functions, `functions.FuncMap`), a read-only mapping from symbol
name to boolean combination behavior.  Missing from src; only its lookup
contract is used by the genome core. -/
abbrev FuncMap : Type := List (String × BoolFn)

/-- Modelled from the spec: the numeric function registry
(package math_nodes, the global `mn.Math`), a read-only mapping from
symbol name to numeric combination behavior.  Missing from src; passed
explicitly where the Go code reads the package-level variable. -/
abbrev MathMap : Type := List (String × MathFn)

/-- Registry lookup `fm[sym]` with its `ok` flag, Go map-read style. -/
def FuncMap.find (fm : FuncMap) (sym : String) : Option BoolFn :=
  fm.lookup sym

/-- Registry lookup `mn.Math[sym]` with its `ok` flag. -/
def MathMap.find (mm : MathMap) (sym : String) : Option MathFn :=
  mm.lookup sym

/-- Modelled from the spec: one Gene collaborator (package gene, missing
from src), reduced to the capability set the genome core consumes:
boolean evaluation, numeric evaluation, the per-gene symbol map as it
stands after the gene has been forced to do symbol accounting
(`SymbolCount` / `SymbolMap`), and the Karva rendering (`String()`).
Per-gene mutation and duplication act on these records externally. -/
structure GeneData where
  evalB : List Bool → FuncMap → Bool
  evalM : List Int → Int
  symbolMap : List (String × Int)
  str : String

/-- The gene record every unallocated address reads as; never reached by
the theorems, which carry well-formed-address hypotheses. -/
def defaultGene : GeneData :=
  { evalB := fun _ _ => false, evalM := fun _ => 0, symbolMap := [], str := "" }

/-- The gene heap: address `a` holds the gene record `h.getD a defaultGene`.
Go gene pointers become addresses; allocation appends at the end. -/
abbrev Heap : Type := List GeneData

/-- Dereference one gene pointer. -/
def geneAt (h : Heap) (a : Nat) : GeneData :=
  List.getD h a defaultGene

/-- The Genome aggregate (struct Genome, genome.go lines 22-28):
gene pointers, linking-function symbol, fitness score, and the memoized
symbol map (`nil` until first computed).  The memo is a total map because
Go map reads of absent keys yield the zero value 0. -/
structure Genome where
  genes : List Nat
  linkFunc : String
  score : Int
  symbolMap : Option (String → Int)

/-- `New(genes, linkFunc)` (genome.go lines 31-33): score zero, memo unset. -/
def Genome.new (genes : List Nat) (linkFunc : String) : Genome :=
  { genes := genes, linkFunc := linkFunc, score := 0, symbolMap := none }

/-- `merge(dst, src)` (genome.go lines 35-39): add every entry of the
per-gene map `src` into the genome-level map `dst`. -/
def merge (dst : String → Int) (src : List (String × Int)) : String → Int :=
  src.foldl (fun d kv => fun k => if k = kv.1 then d k + kv.2 else d k) dst

/-- The genome-level symbol map built by the first `SymbolCount` call
(genome.go lines 51-58): seed an empty map with
`SymbolMap[LinkFunc] = len(Genes) - 1`, then for every gene force its
accounting and `merge` its `SymbolMap` in. -/
def Genome.computeSymbolMap (g : Genome) (h : Heap) : String → Int :=
  g.genes.foldl (fun m a => merge m (geneAt h a).symbolMap)
    (fun k => if k = g.linkFunc then (g.genes.length : Int) - 1 else 0)

/-- `SymbolCount(sym)` (genome.go lines 50-61) as a state-passing call:
returns the count and the genome after the call (the memo write is the
only state change). -/
def Genome.symbolCountRun (g : Genome) (h : Heap) (sym : String) :
    Int × Genome :=
  match g.symbolMap with
  | some m => (m sym, g)
  | none =>
      let m := g.computeSymbolMap h
      (m sym, { g with symbolMap := some m })

/-- The fold loop shared by EvalBool and EvalMath
(`for i := 1; i < len(g.Genes); i++ { result = lf(result, ev(i), z, z) }`):
`fuel` counts the remaining iterations, `i` is the loop index. -/
def linkLoop {α : Type} (lf : α → α → α → α → α) (z : α) (ev : Nat → α) :
    Nat → Nat → α → α
  | _, 0, result => result
  | i, fuel + 1, result => linkLoop lf z ev (i + 1) fuel (lf result (ev i) z z)

/-- `EvalBool(in, fm)` (genome.go lines 66-77).  Unresolved linking
function: log and return false.  Otherwise evaluate gene 0 and fold genes
1..N-1 left-to-right with trailing arguments `false, false`.  On an empty
gene sequence the Go code panics at `g.Genes[0]`; the default-address read
below is outside every stated claim, which all assume N >= 1. -/
def Genome.evalBool (g : Genome) (h : Heap) (inp : List Bool) (fm : FuncMap) :
    Bool :=
  match fm.find g.linkFunc with
  | none => false
  | some lf =>
      linkLoop lf false (fun i => (geneAt h (g.genes.getD i 0)).evalB inp fm)
        1 (g.genes.length - 1)
        ((geneAt h (g.genes.getD 0 0)).evalB inp fm)

/-- `EvalMath(in)` (genome.go lines 81-92).  The Go code resolves the
linking function in the package-level registry `mn.Math`, taken here as
the explicit argument `mm`.  Unresolved: log and return 0.0. -/
def Genome.evalMath (g : Genome) (h : Heap) (inp : List Int) (mm : MathMap) :
    Int :=
  match mm.find g.linkFunc with
  | none => 0
  | some lf =>
      linkLoop lf 0 (fun i => (geneAt h (g.genes.getD i 0)).evalM inp)
        1 (g.genes.length - 1)
        ((geneAt h (g.genes.getD 0 0)).evalM inp)

/-- `strings.Join(elems, sep)`: empty list gives the empty string,
otherwise the first element followed by `sep + elem` for each rest. -/
def joinStrs (sep : String) : List String → String
  | [] => ""
  | s :: rest => rest.foldl (fun acc x => acc ++ sep ++ x) s

/-- `String()` (genome.go lines 95-101): per-gene Karva renderings joined
with the separator `"|" + LinkFunc + "|"`. -/
def Genome.toStr (g : Genome) (h : Heap) : String :=
  joinStrs ("|" ++ g.linkFunc ++ "|") (g.genes.map (fun a => (geneAt h a).str))

/-- The `Mutate` loop (`for i := 0; i < numMutations; i++`): each round
reads one random value, picks gene index `n := rnd i % len(genes)`
(modelling `rand.Intn(len(g.Genes))`, whose result lies in `[0, len)`),
and mutates the pointed-to gene in place on the heap via the Gene
collaborator mutation capability `gmut`.  Returns the final heap and the
list of chosen indices, in order.  `fuel` is the number of remaining
rounds, `i` the loop index. -/
def mutateLoop (genes : List Nat) (gmut : GeneData → GeneData)
    (rnd : Nat → Nat) : Nat → Nat → Heap → Heap × List Nat
  | _, 0, h => (h, [])
  | i, fuel + 1, h =>
      let n := rnd i % genes.length
      let a := genes.getD n 0
      let h2 := h.set a (gmut (geneAt h a))
      let r := mutateLoop genes gmut rnd (i + 1) fuel h2
      (r.1, n :: r.2)

/-- `Mutate(numMutations)` (genome.go lines 104-111).  `numMutations` is a
Go int; the loop body runs `max numMutations 0` times (`Int.toNat`), so
zero or negative counts are no-ops.  The genome record itself is never
written; only pointed-to genes change. -/
def Genome.mutateRun (g : Genome) (h : Heap) (gmut : GeneData → GeneData)
    (rnd : Nat → Nat) (numMutations : Int) : Heap × List Nat :=
  mutateLoop g.genes gmut rnd 0 numMutations.toNat h

/-- The non-nil branch of `Dup` (genome.go lines 119-127): a fresh Genome
with the same LinkFunc and Score, SymbolMap left at its zero value (nil),
and a freshly allocated gene sequence where slot `i` holds
`g.Genes[i].Dup()` — the Gene collaborator deep-copy contract makes the
new record an independent copy of the pointed-to gene value, at a fresh
address appended to the heap. -/
def Genome.dupAlloc (g : Genome) (h : Heap) : Genome × Heap :=
  ({ genes := (List.range g.genes.length).map (fun i => h.length + i),
     linkFunc := g.linkFunc,
     score := g.score,
     symbolMap := none },
   h ++ g.genes.map (fun a => geneAt h a))

/-- `Dup()` (genome.go lines 114-128) on a possibly nil receiver: a nil
genome logs a diagnostic and yields nil without touching the heap. -/
def Genome.dupRun : Option Genome → Heap → Option Genome × Heap
  | none, h => (none, h)
  | some g, h =>
      let r := g.dupAlloc h
      (some r.1, r.2)

/-- `Evaluate(sf, c)` (genome.go lines 136-142).  A nil ScoringFunc is a
fatal `log.Fatalf` abort: the process terminates and nothing reaches the
channel, modelled as `none`.  Otherwise the score is written into the
genome and that same scored genome is sent on the channel exactly once;
the sink is the list of values sent so far. -/
def Genome.evaluateRun (g : Genome) (sf : Option (Genome → Int))
    (sink : List Genome) : Option (Genome × List Genome) :=
  match sf with
  | none => none
  | some f =>
      let scored := { g with score := f g }
      some (scored, sink ++ [scored])

/-- The actually-exercised count of symbol `k` in one per-gene symbol map:
the sum of the values stored under key `k`. -/
def sumKey (k : String) : List (String × Int) → Int
  | [] => 0
  | kv :: rest => (if kv.1 = k then kv.2 else 0) + sumKey k rest

/-! ### Concrete fixtures used by the witness theorems -/

/-- A concrete gene rendering "a.b". -/
def wGene0 : GeneData :=
  { evalB := fun inp _ => inp.getD 0 false,
    evalM := fun inp => inp.getD 0 0,
    symbolMap := [("x", 2)],
    str := "a.b" }

/-- A concrete gene rendering "c.d". -/
def wGene1 : GeneData :=
  { evalB := fun inp _ => inp.getD 1 false,
    evalM := fun inp => inp.getD 1 0,
    symbolMap := [("y", 1), ("x", 3)],
    str := "c.d" }

/-- A two-gene heap. -/
def wHeap : Heap := [wGene0, wGene1]

/-- A two-gene genome linking with "OR". -/
def wGenome : Genome := Genome.new [0, 1] "OR"

/-- Concrete boolean linking behavior for the fixtures. -/
def wOrB : BoolFn := fun a b _ _ => a || b

/-- Concrete numeric linking behavior for the fixtures. -/
def wOrM : MathFn := fun a b _ _ => a + b

/-- A one-entry boolean registry resolving "OR". -/
def wFm : FuncMap := [("OR", wOrB)]

/-- A one-entry numeric registry resolving "OR". -/
def wMm : MathMap := [("OR", wOrM)]

/-- A deterministic stand-in for the random stream. -/
def wRnd (i : Nat) : Nat := 7 * i + 3

/-! ### Supporting lemmas -/

/-- The evaluation loop is a left fold over the loop indices. -/
theorem linkLoop_eq_range'_foldl {α : Type} (lf : α → α → α → α → α) (z : α)
    (ev : Nat → α) (fuel : Nat) : ∀ (i : Nat) (r : α),
    linkLoop lf z ev i fuel r =
      (List.range' i fuel).foldl (fun s j => lf s (ev j) z z) r := by
  induction fuel with
  | zero => intro i r; simp [linkLoop]
  | succ n ih =>
      intro i r
      rw [List.range'_succ]
      simp only [linkLoop, List.foldl_cons]
      exact ih (i + 1) (lf r (ev i) z z)

/-- A left fold over indices `i..l.length-1` reading `l` at each index is
a left fold over the suffix `l.drop i`. -/
theorem range'_foldl_getD {α β : Type} (step : β → α → β) (d : α) (fuel : Nat) :
    ∀ (l : List α) (i : Nat) (r : β), i + fuel = l.length →
    (List.range' i fuel).foldl (fun s j => step s (l.getD j d)) r =
      (l.drop i).foldl step r := by
  induction fuel with
  | zero =>
      intro l i r hi
      have : i = l.length := by omega
      subst this
      simp
  | succ n ih =>
      intro l i r hi
      have hlt : i < l.length := by omega
      rw [List.range'_succ]
      simp only [List.foldl_cons]
      rw [List.drop_eq_getElem_cons hlt, List.foldl_cons,
        List.getD_eq_getElem l d hlt]
      exact ih l (i + 1) (step r l[i]) (by omega)

/-! ### Claims -/

/-- C1: on a genome with at least one gene whose linking function resolves
in the relevant registry, EvalBool (resp. EvalMath) evaluates gene 0
standalone and then folds genes 1..N-1 strictly left-to-right, each step
computing `result = link(result, gene[i] evaluation, false, false)`
(resp. `result = link(result, gene[i] evaluation, 0.0, 0.0)`), returning
the final fold result. -/
theorem eval_folds_left_to_right (g : Genome) (h : Heap) (inp : List Bool)
    (fm : FuncMap) (inpM : List Int) (mm : MathMap) (lf : BoolFn)
    (lm : MathFn) (a0 : Nat) (rest : List Nat)
    (hg : g.genes = a0 :: rest)
    (hb : fm.find g.linkFunc = some lf)
    (hm : mm.find g.linkFunc = some lm) :
    g.evalBool h inp fm =
      rest.foldl (fun r a => lf r ((geneAt h a).evalB inp fm) false false)
        ((geneAt h a0).evalB inp fm) ∧
    g.evalMath h inpM mm =
      rest.foldl (fun r a => lm r ((geneAt h a).evalM inpM) 0 0)
        ((geneAt h a0).evalM inpM) := by
  constructor
  · show Genome.evalBool g h inp fm = _
    unfold Genome.evalBool
    rw [hb]
    have e1 := linkLoop_eq_range'_foldl lf false
      (fun i => (geneAt h (g.genes.getD i 0)).evalB inp fm)
      (g.genes.length - 1) 1 ((geneAt h (g.genes.getD 0 0)).evalB inp fm)
    have e2 := range'_foldl_getD
      (fun s a => lf s ((geneAt h a).evalB inp fm) false false) 0
      (g.genes.length - 1) g.genes 1
      ((geneAt h (g.genes.getD 0 0)).evalB inp fm) (by rw [hg]; simp only [List.length_cons]; omega)
    rw [hg] at e1 e2 ⊢
    exact e1.trans e2
  · show Genome.evalMath g h inpM mm = _
    unfold Genome.evalMath
    rw [hm]
    have e1 := linkLoop_eq_range'_foldl lm 0
      (fun i => (geneAt h (g.genes.getD i 0)).evalM inpM)
      (g.genes.length - 1) 1 ((geneAt h (g.genes.getD 0 0)).evalM inpM)
    have e2 := range'_foldl_getD
      (fun s a => lm s ((geneAt h a).evalM inpM) 0 0) 0
      (g.genes.length - 1) g.genes 1
      ((geneAt h (g.genes.getD 0 0)).evalM inpM) (by rw [hg]; simp only [List.length_cons]; omega)
    rw [hg] at e1 e2 ⊢
    exact e1.trans e2

/-- Witness for C1 at a concrete two-gene genome and resolving registries. -/
theorem eval_folds_left_to_right_witness :
    wGenome.genes = 0 :: [1] ∧
    (wGenome.evalBool wHeap [true, false] wFm =
      [1].foldl
        (fun r a => wOrB r ((geneAt wHeap a).evalB [true, false] wFm)
          false false)
        ((geneAt wHeap 0).evalB [true, false] wFm) ∧
     wGenome.evalMath wHeap [4, 5] wMm =
      [1].foldl (fun r a => wOrM r ((geneAt wHeap a).evalM [4, 5]) 0 0)
        ((geneAt wHeap 0).evalM [4, 5])) :=
  ⟨rfl, eval_folds_left_to_right wGenome wHeap [true, false] wFm [4, 5] wMm
    wOrB wOrM 0 [1] rfl rfl rfl⟩

/-- C4: a genome whose linking function does not resolve in the supplied
boolean registry makes EvalBool log a diagnostic and return false;
symmetrically EvalMath returns 0.0 on an unresolved numeric registry
lookup; neither call fails or aborts the process. -/
theorem eval_unresolved_link_defaults (g : Genome) (h : Heap)
    (inp : List Bool) (fm : FuncMap) (inpM : List Int) (mm : MathMap)
    (hb : fm.find g.linkFunc = none) (hm : mm.find g.linkFunc = none) :
    g.evalBool h inp fm = false ∧ g.evalMath h inpM mm = 0 := by
  constructor
  · unfold Genome.evalBool
    rw [hb]
  · unfold Genome.evalMath
    rw [hm]

/-- Witness for C4 with empty registries. -/
theorem eval_unresolved_link_defaults_witness :
    (FuncMap.find [] wGenome.linkFunc = none ∧
     MathMap.find [] wGenome.linkFunc = none) ∧
    (wGenome.evalBool wHeap [true] [] = false ∧
     wGenome.evalMath wHeap [4] [] = 0) :=
  ⟨⟨rfl, rfl⟩, eval_unresolved_link_defaults wGenome wHeap [true] [] [4] []
    rfl rfl⟩

/-- C8: String() returns the per-gene textual renderings joined with the
separator `"|" + linkFunc + "|"`, recomputed on each call from the current
genes with no caching: the rendering of gene 0 followed by one separator
and one gene rendering per remaining gene, left to right. -/
theorem toStr_joins_with_link_separator (g : Genome) (h : Heap) (a0 : Nat)
    (rest : List Nat) (hg : g.genes = a0 :: rest) :
    g.toStr h =
      rest.foldl
        (fun acc a => acc ++ ("|" ++ g.linkFunc ++ "|") ++ (geneAt h a).str)
        (geneAt h a0).str := by
  unfold Genome.toStr
  rw [hg, List.map_cons]
  simp only [joinStrs]
  rw [List.foldl_map]

/-- Witness for C8: the two-gene scenario renders "a.b|OR|c.d". -/
theorem toStr_joins_witness :
    wGenome.genes = 0 :: [1] ∧ wGenome.toStr wHeap = "a.b|OR|c.d" :=
  ⟨rfl, (toStr_joins_with_link_separator wGenome wHeap 0 [1] rfl).trans
    (by rfl)⟩

/-- Reading one key out of `merge` adds the summed occurrences of that
key in the merged-in per-gene map. -/
theorem merge_apply (src : List (String × Int)) : ∀ (m : String → Int)
    (k : String), merge m src k = m k + sumKey k src := by
  induction src with
  | nil => intro m k; simp [merge, sumKey]
  | cons kv rest ih =>
      intro m k
      have step : merge m (kv :: rest) =
          merge (fun k2 => if k2 = kv.1 then m k2 + kv.2 else m k2) rest := rfl
      rw [step, ih]
      simp only [sumKey]
      by_cases hk : k = kv.1
      · rw [if_pos hk, if_pos hk.symm]
        omega
      · rw [if_neg hk, if_neg (fun hh => hk hh.symm)]
        omega

/-- Folding `merge` over the genes adds every per-gene count of the
key to the seed map. -/
theorem foldl_merge_apply (h : Heap) (k : String) : ∀ (addrs : List Nat)
    (m : String → Int),
    (addrs.foldl (fun acc a => merge acc (geneAt h a).symbolMap) m) k =
      m k + (addrs.map (fun a => sumKey k (geneAt h a).symbolMap)).sum := by
  intro addrs
  induction addrs with
  | nil => intro m; simp
  | cons a rest ih =>
      intro m
      rw [List.foldl_cons, ih, merge_apply, List.map_cons, List.sum_cons]
      omega

/-- C2: the first SymbolCount call on a genome with N >= 1 genes returns
`(N-1 if s == linkFunc else 0)` plus the sum over all genes of the count
of `s` in that gene's own symbol map (shared symbols sum additively); in
particular `SymbolCount(linkFunc) = N - 1` when no gene itself uses the
link-function symbol. -/
theorem symbolCount_first_call (g : Genome) (h : Heap) (s : String)
    (hmemo : g.symbolMap = none) (_hne : g.genes ≠ []) :
    (g.symbolCountRun h s).1 =
      (if s = g.linkFunc then (g.genes.length : Int) - 1 else 0) +
        (g.genes.map (fun a => sumKey s (geneAt h a).symbolMap)).sum ∧
    ((∀ a ∈ g.genes, sumKey g.linkFunc (geneAt h a).symbolMap = 0) →
      (g.symbolCountRun h g.linkFunc).1 = (g.genes.length : Int) - 1) := by
  have key : ∀ k, (g.symbolCountRun h k).1 =
      (if k = g.linkFunc then (g.genes.length : Int) - 1 else 0) +
        (g.genes.map (fun a => sumKey k (geneAt h a).symbolMap)).sum := by
    intro k
    simp only [Genome.symbolCountRun, hmemo, Genome.computeSymbolMap]
    rw [foldl_merge_apply]
  refine ⟨key s, fun hz => ?_⟩
  rw [key g.linkFunc, if_pos rfl]
  have hsum :
      (g.genes.map (fun a => sumKey g.linkFunc (geneAt h a).symbolMap)).sum
        = 0 := by
    apply List.sum_eq_zero
    intro x hx
    obtain ⟨a, ha, rfl⟩ := List.mem_map.mp hx
    exact hz a ha
  rw [hsum]
  omega

/-- Witness for C2 at the two-gene fixture, counting symbol "x". -/
theorem symbolCount_first_call_witness :
    (wGenome.symbolMap = none ∧ wGenome.genes ≠ []) ∧
    ((wGenome.symbolCountRun wHeap "x").1 =
      (if "x" = wGenome.linkFunc then (wGenome.genes.length : Int) - 1
        else 0) +
        (wGenome.genes.map
          (fun a => sumKey "x" (geneAt wHeap a).symbolMap)).sum ∧
     ((∀ a ∈ wGenome.genes,
        sumKey wGenome.linkFunc (geneAt wHeap a).symbolMap = 0) →
      (wGenome.symbolCountRun wHeap wGenome.linkFunc).1 =
        (wGenome.genes.length : Int) - 1)) :=
  ⟨⟨rfl, by decide⟩, symbolCount_first_call wGenome wHeap "x" rfl (by decide)⟩

/-- C3: SymbolCount is one-shot memoized: once it has run, every later
call with the same symbol returns the first value without recomputing the
map, even if the genes are externally mutated (new gene list `gs2`, new
heap `h2`) between the calls. -/
theorem symbolCount_memoized (g : Genome) (h h2 : Heap) (s : String)
    (gs2 : List Nat) :
    (({ (g.symbolCountRun h s).2 with genes := gs2 }).symbolCountRun
        h2 s).1 = (g.symbolCountRun h s).1 ∧
    (({ (g.symbolCountRun h s).2 with genes := gs2 }).symbolCountRun
        h2 s).2 = { (g.symbolCountRun h s).2 with genes := gs2 } := by
  cases hm : g.symbolMap with
  | some m => simp [Genome.symbolCountRun, hm]
  | none => simp [Genome.symbolCountRun, hm]

/-- C5: Evaluate with an absent scoring function fails fatally and sends
nothing to the sink; with a present scoring function `f` it writes
`f genome` into the score field and delivers that same scored genome
through the sink exactly once, all other fields unchanged. -/
theorem evaluate_scores_and_delivers (g : Genome) (sink : List Genome)
    (f : Genome → Int) (g2 : Genome) (sink2 : List Genome)
    (hr : g.evaluateRun (some f) sink = some (g2, sink2)) :
    g2.score = f g ∧ g2.genes = g.genes ∧ g2.linkFunc = g.linkFunc ∧
    g2.symbolMap = g.symbolMap ∧ sink2 = sink ++ [g2] ∧
    g.evaluateRun none sink = none := by
  simp only [Genome.evaluateRun, Option.some.injEq, Prod.mk.injEq] at hr
  obtain ⟨hg2, hs2⟩ := hr
  subst hg2
  subst hs2
  exact ⟨rfl, rfl, rfl, rfl, rfl, rfl⟩

/-- Witness for C5 with a scoring function returning 750. -/
theorem evaluate_scores_and_delivers_witness :
    wGenome.evaluateRun (some (fun _ => 750)) [] =
      some ({ wGenome with score := 750 },
            [{ wGenome with score := 750 }]) ∧
    (({ wGenome with score := 750 } : Genome).score =
        (fun _ => (750 : Int)) wGenome ∧
      ({ wGenome with score := 750 } : Genome).genes = wGenome.genes ∧
      ({ wGenome with score := 750 } : Genome).linkFunc =
        wGenome.linkFunc ∧
      ({ wGenome with score := 750 } : Genome).symbolMap =
        wGenome.symbolMap ∧
      [{ wGenome with score := 750 }] =
        [] ++ [{ wGenome with score := 750 }] ∧
      wGenome.evaluateRun none [] = none) :=
  ⟨rfl, evaluate_scores_and_delivers wGenome [] (fun _ => 750)
    { wGenome with score := 750 } [{ wGenome with score := 750 }] rfl⟩

/-- Every round of the mutation loop appends one chosen index. -/
theorem mutateLoop_indices_length (genes : List Nat)
    (gmut : GeneData → GeneData) (rnd : Nat → Nat) : ∀ (fuel i : Nat)
    (h : Heap), ((mutateLoop genes gmut rnd i fuel h).2).length = fuel := by
  intro fuel
  induction fuel with
  | zero => intro i h; rfl
  | succ n ih =>
      intro i h
      simp only [mutateLoop, List.length_cons]
      rw [ih]

/-- The mutation loop only overwrites heap slots, never grows or shrinks
the heap. -/
theorem mutateLoop_heap_length (genes : List Nat)
    (gmut : GeneData → GeneData) (rnd : Nat → Nat) : ∀ (fuel i : Nat)
    (h : Heap), ((mutateLoop genes gmut rnd i fuel h).1).length = h.length := by
  intro fuel
  induction fuel with
  | zero => intro i h; rfl
  | succ n ih =>
      intro i h
      simp only [mutateLoop]
      rw [ih, List.length_set]

/-- On a nonempty gene list every chosen index is in range. -/
theorem mutateLoop_indices_lt (genes : List Nat)
    (gmut : GeneData → GeneData) (rnd : Nat → Nat) (hne : genes ≠ []) :
    ∀ (fuel i : Nat) (h : Heap),
    ∀ n ∈ (mutateLoop genes gmut rnd i fuel h).2, n < genes.length := by
  intro fuel
  induction fuel with
  | zero => intro i h n hn; simp [mutateLoop] at hn
  | succ m ih =>
      intro i h n hn
      simp only [mutateLoop, List.mem_cons] at hn
      cases hn with
      | inl he =>
          subst he
          exact Nat.mod_lt _ (List.length_pos.mpr hne)
      | inr ht => exact ih (i + 1) _ n ht

/-- C7: Mutate(k) is a no-op for k <= 0 (the loop body never runs); for
k >= 1 it issues exactly k per-gene mutation calls, each at an index in
[0, len(genes)); the gene sequence and the heap size are unchanged, so
the genome stays nonempty. -/
theorem mutate_bounds (g : Genome) (h : Heap) (gmut : GeneData → GeneData)
    (rnd : Nat → Nat) (k : Int) :
    (k ≤ 0 → g.mutateRun h gmut rnd k = (h, [])) ∧
    ((g.mutateRun h gmut rnd k).2).length = k.toNat ∧
    (g.genes ≠ [] → ∀ n ∈ (g.mutateRun h gmut rnd k).2,
      n < g.genes.length) ∧
    ((g.mutateRun h gmut rnd k).1).length = h.length := by
  refine ⟨fun hk => ?_, ?_, fun hne => ?_, ?_⟩
  · unfold Genome.mutateRun
    rw [Int.toNat_of_nonpos hk]
    rfl
  · exact mutateLoop_indices_length g.genes gmut rnd k.toNat 0 h
  · exact mutateLoop_indices_lt g.genes gmut rnd hne k.toNat 0 h
  · exact mutateLoop_heap_length g.genes gmut rnd k.toNat 0 h

/-- Witness for C7: a negative count is a no-op and a count of 3 issues
three in-range mutation calls on the two-gene fixture. -/
theorem mutate_bounds_witness :
    ((-2 : Int) ≤ 0 ∧ wGenome.mutateRun wHeap id wRnd (-2) = (wHeap, [])) ∧
    (wGenome.genes ≠ [] ∧ ∀ n ∈ (wGenome.mutateRun wHeap id wRnd 3).2,
      n < wGenome.genes.length) :=
  ⟨⟨by decide, (mutate_bounds wGenome wHeap id wRnd (-2)).1 (by decide)⟩,
   ⟨by decide, (mutate_bounds wGenome wHeap id wRnd 3).2.2.1 (by decide)⟩⟩

/-- C9: EvalBool and EvalMath are deterministic and read only the gene
sequence and the linking-function symbol: two genomes that agree on
`genes` and `linkFunc` (whatever their score or memoized symbol map, the
only fields the aggregate can otherwise vary in) evaluate identically
under the same heap, inputs and registries.  Both embedded definitions
return a bare value and no updated state, mirroring that the source
writes no genome field during evaluation. -/
theorem eval_deterministic_frame (g g2 : Genome) (h : Heap)
    (inp : List Bool) (fm : FuncMap) (inpM : List Int) (mm : MathMap)
    (hgenes : g2.genes = g.genes) (hlink : g2.linkFunc = g.linkFunc) :
    g2.evalBool h inp fm = g.evalBool h inp fm ∧
    g2.evalMath h inpM mm = g.evalMath h inpM mm := by
  constructor
  · unfold Genome.evalBool
    rw [hgenes, hlink]
  · unfold Genome.evalMath
    rw [hgenes, hlink]

/-- Witness for C9: a genome differing from the fixture only in score and
memo evaluates identically. -/
theorem eval_deterministic_frame_witness :
    (({ wGenome with score := 99, symbolMap := some (fun _ => 5) } :
        Genome).genes = wGenome.genes ∧
     ({ wGenome with score := 99, symbolMap := some (fun _ => 5) } :
        Genome).linkFunc = wGenome.linkFunc) ∧
    (({ wGenome with score := 99, symbolMap := some (fun _ => 5) } :
        Genome).evalBool wHeap [true] wFm =
      wGenome.evalBool wHeap [true] wFm ∧
     ({ wGenome with score := 99, symbolMap := some (fun _ => 5) } :
        Genome).evalMath wHeap [4, 5] wMm =
      wGenome.evalMath wHeap [4, 5] wMm) :=
  ⟨⟨rfl, rfl⟩, eval_deterministic_frame wGenome
    { wGenome with score := 99, symbolMap := some (fun _ => 5) } wHeap
    [true] wFm [4, 5] wMm rfl rfl⟩

/-- C10: Dup never copies the memoized symbol map: the duplicate of any
genome, even one whose map was already populated, has its symbol map
unset, so accounting on the duplicate recomputes from scratch. -/
theorem dup_resets_symbolMap (g : Genome) (h : Heap) (m : String → Int) :
    ((({ g with symbolMap := some m } : Genome).dupAlloc h).1).symbolMap =
      none ∧
    ((g.dupAlloc h).1).symbolMap = none ∧
    Genome.dupRun (some { g with symbolMap := some m }) h =
      (some (({ g with symbolMap := some m } : Genome).dupAlloc h).1,
       (({ g with symbolMap := some m } : Genome).dupAlloc h).2) :=
  ⟨rfl, rfl, rfl⟩

/-- Reading below the old length is unchanged by appending to the heap. -/
theorem geneAt_append_left (h l : Heap) (a : Nat) (ha : a < h.length) :
    geneAt (h ++ l) a = geneAt h a :=
  List.getD_append h l defaultGene a ha

/-- Reading a freshly appended slot yields the appended record. -/
theorem geneAt_append_add (h l : Heap) (i : Nat) :
    geneAt (h ++ l) (h.length + i) = List.getD l i defaultGene := by
  unfold geneAt
  rw [List.getD_append_right h l defaultGene (h.length + i)
    (Nat.le_add_right _ _)]
  congr 1
  omega

/-- Overwriting one heap slot leaves every other address unchanged. -/
theorem geneAt_set_ne (h : Heap) (b : Nat) (x : GeneData) (a : Nat)
    (hab : a ≠ b) : geneAt (h.set b x) a = geneAt h a := by
  unfold geneAt
  rw [List.getD_eq_getElem?_getD, List.getD_eq_getElem?_getD,
    List.getElem?_set_ne (Ne.symm hab)]

/-- The mutation loop writes only through the addresses in its gene list:
any address outside it reads the same gene record afterwards. -/
theorem mutateLoop_geneAt_outside (genes : List Nat)
    (gmut : GeneData → GeneData) (rnd : Nat → Nat) (hne : genes ≠ []) :
    ∀ (fuel i : Nat) (h : Heap) (a : Nat), a ∉ genes →
    geneAt ((mutateLoop genes gmut rnd i fuel h).1) a = geneAt h a := by
  intro fuel
  induction fuel with
  | zero => intro i h a ha; rfl
  | succ m ih =>
      intro i h a ha
      simp only [mutateLoop]
      have hlt : rnd i % genes.length < genes.length :=
        Nat.mod_lt _ (List.length_pos.mpr hne)
      have haddr : genes.getD (rnd i % genes.length) 0 ∈ genes := by
        rw [List.getD_eq_getElem genes 0 hlt]
        exact List.getElem_mem hlt
      rw [ih (i + 1) _ a ha]
      exact geneAt_set_ne _ _ _ _ (fun he => ha (he ▸ haddr))

/-- The duplicate has exactly as many genes as the source. -/
theorem dupAlloc_genes_length (g : Genome) (h : Heap) :
    (((g.dupAlloc h).1).genes).length = g.genes.length := by
  simp [Genome.dupAlloc]

/-- Gene slot i of the duplicate is the fresh address `h.length + i`. -/
theorem dupAlloc_genes_getD (g : Genome) (h : Heap) (i : Nat)
    (hi : i < g.genes.length) :
    (((g.dupAlloc h).1).genes).getD i 0 = h.length + i := by
  unfold Genome.dupAlloc
  rw [List.getD_eq_getElem _ 0 (by simpa using hi), List.getElem_map]
  congr 1
  simp

/-- Every gene address of the duplicate lies beyond the old heap. -/
theorem dupAlloc_fresh (g : Genome) (h : Heap) :
    ∀ b ∈ ((g.dupAlloc h).1).genes, h.length ≤ b := by
  intro b hb
  simp only [Genome.dupAlloc, List.mem_map, List.mem_range] at hb
  obtain ⟨i, hi, rfl⟩ := hb
  omega

/-- Gene i of the duplicate dereferences to the same gene record as gene
i of the source did at duplication time. -/
theorem dupAlloc_geneAt (g : Genome) (h : Heap) (i : Nat)
    (hi : i < g.genes.length) :
    geneAt ((g.dupAlloc h).2) ((((g.dupAlloc h).1).genes).getD i 0) =
      geneAt h (g.genes.getD i 0) := by
  rw [dupAlloc_genes_getD g h i hi]
  show geneAt (h ++ g.genes.map (fun a => geneAt h a)) (h.length + i) = _
  rw [geneAt_append_add]
  rw [List.getD_eq_getElem _ _ (by simpa using hi), List.getElem_map,
    List.getD_eq_getElem g.genes 0 hi]

/-- The duplicate renders exactly as the source at duplication time. -/
theorem dupAlloc_toStr (g : Genome) (h : Heap) :
    ((g.dupAlloc h).1).toStr ((g.dupAlloc h).2) = g.toStr h := by
  unfold Genome.toStr
  congr 1
  apply List.ext_getElem
  · simp [Genome.dupAlloc]
  · intro n h1 h2
    simp only [List.getElem_map]
    have hn : n < g.genes.length := by simpa using h2
    have hd : n < (((g.dupAlloc h).1).genes).length := by
      rw [dupAlloc_genes_length]; exact hn
    rw [← List.getD_eq_getElem _ 0 hd, ← List.getD_eq_getElem g.genes 0 hn,
      dupAlloc_geneAt g h n hn]

/-- Mutating the duplicate, with any mutation behavior, random stream and
round count, never changes the source rendering: the duplicate owns only
fresh addresses, all disjoint from the source addresses. -/
theorem dup_mutate_preserves_source (g : Genome) (h : Heap)
    (wf : ∀ a ∈ g.genes, a < h.length) (hne : g.genes ≠ [])
    (gmut : GeneData → GeneData) (rnd : Nat → Nat) (k : Int) :
    g.toStr ((((g.dupAlloc h).1).mutateRun ((g.dupAlloc h).2) gmut rnd
      k).1) = g.toStr h := by
  unfold Genome.toStr
  congr 1
  apply List.map_congr_left
  intro a ha
  have ha1 : a < h.length := wf a ha
  have hdne : (((g.dupAlloc h).1).genes) ≠ [] := by
    intro hc
    apply hne
    have hlen := dupAlloc_genes_length g h
    rw [hc] at hlen
    exact List.length_eq_zero.mp hlen.symm
  have hout : a ∉ ((g.dupAlloc h).1).genes := by
    intro hc
    have := dupAlloc_fresh g h a hc
    omega
  unfold Genome.mutateRun
  rw [mutateLoop_geneAt_outside _ gmut rnd hdne _ 0 _ a hout]
  have hkeep : geneAt ((g.dupAlloc h).2) a = geneAt h a := by
    show geneAt (h ++ g.genes.map (fun b => geneAt h b)) a = geneAt h a
    exact geneAt_append_left h _ a ha1
  rw [hkeep]

/-- C6: Dup on a non-nil genome with valid gene pointers returns a new
genome with the same linkFunc and score, a freshly allocated gene
sequence of the same length whose every slot is an independent deep copy
of the corresponding source gene at a brand-new address sharing nothing
with the source, so the duplicate renders identically at the moment of
duplication and mutating the duplicate never changes the source
rendering; Dup on a nil genome yields nil without aborting. -/
theorem dup_deep_copy (g : Genome) (h : Heap)
    (wf : ∀ a ∈ g.genes, a < h.length) (hne : g.genes ≠ []) :
    Genome.dupRun (some g) h = (some (g.dupAlloc h).1, (g.dupAlloc h).2) ∧
    ((g.dupAlloc h).1).linkFunc = g.linkFunc ∧
    ((g.dupAlloc h).1).score = g.score ∧
    (((g.dupAlloc h).1).genes).length = g.genes.length ∧
    (∀ i, i < g.genes.length →
      geneAt ((g.dupAlloc h).2) ((((g.dupAlloc h).1).genes).getD i 0) =
        geneAt h (g.genes.getD i 0)) ∧
    (∀ b ∈ ((g.dupAlloc h).1).genes, b ∉ g.genes) ∧
    ((g.dupAlloc h).1).toStr ((g.dupAlloc h).2) = g.toStr h ∧
    (∀ (gmut : GeneData → GeneData) (rnd : Nat → Nat) (k : Int),
      g.toStr ((((g.dupAlloc h).1).mutateRun ((g.dupAlloc h).2) gmut rnd
        k).1) = g.toStr h) ∧
    Genome.dupRun none h = (none, h) := by
  refine ⟨rfl, rfl, rfl, dupAlloc_genes_length g h,
    fun i hi => dupAlloc_geneAt g h i hi, ?_, dupAlloc_toStr g h,
    fun gmut rnd k => dup_mutate_preserves_source g h wf hne gmut rnd k,
    rfl⟩
  intro b hb hbg
  have h1 := dupAlloc_fresh g h b hb
  have h2 := wf b hbg
  omega

/-- Witness for C6 at the two-gene fixture genome and its heap. -/
theorem dup_deep_copy_witness :
    ((∀ a ∈ wGenome.genes, a < wHeap.length) ∧ wGenome.genes ≠ []) ∧
    (Genome.dupRun (some wGenome) wHeap =
      (some (wGenome.dupAlloc wHeap).1, (wGenome.dupAlloc wHeap).2) ∧
     ((wGenome.dupAlloc wHeap).1).linkFunc = wGenome.linkFunc ∧
     ((wGenome.dupAlloc wHeap).1).score = wGenome.score ∧
     (((wGenome.dupAlloc wHeap).1).genes).length =
       wGenome.genes.length ∧
     (∀ i, i < wGenome.genes.length →
       geneAt ((wGenome.dupAlloc wHeap).2)
         ((((wGenome.dupAlloc wHeap).1).genes).getD i 0) =
         geneAt wHeap (wGenome.genes.getD i 0)) ∧
     (∀ b ∈ ((wGenome.dupAlloc wHeap).1).genes, b ∉ wGenome.genes) ∧
     ((wGenome.dupAlloc wHeap).1).toStr ((wGenome.dupAlloc wHeap).2) =
       wGenome.toStr wHeap ∧
     (∀ (gmut : GeneData → GeneData) (rnd : Nat → Nat) (k : Int),
       wGenome.toStr ((((wGenome.dupAlloc wHeap).1).mutateRun
         ((wGenome.dupAlloc wHeap).2) gmut rnd k).1) =
         wGenome.toStr wHeap) ∧
     Genome.dupRun none wHeap = (none, wHeap)) :=
  ⟨⟨by decide, by decide⟩,
   dup_deep_copy wGenome wHeap (by decide) (by decide)⟩

end GEP
